import Mathlib

/-!
Shallow embedding of `homework_12.py`, a command-line address book with
validated fields (name, phone, birthday), a record type, and a paginated
in-memory store with JSON persistence.

Conventions of the embedding:
* Python `datetime` objects are modelled by `DateTime` below.
* `None`-argument branches of the validators cannot arise for `String`
  inputs and are omitted.
* Raised exceptions are modelled by `Except String` results (construction)
  or by an `Option String` error component (setters, `load_from_file`).
* Python dicts are insertion-ordered association lists; assignment to an
  existing key updates the entry in place.
-/

/-- A Python `datetime`: year, month, day, and the time of day collapsed to
seconds within the day. -/
structure DateTime where
  year : Nat
  month : Nat
  day : Nat
  secs : Nat
deriving DecidableEq, Repr

/-- Days of the proleptic Gregorian calendar before year `y`
(the `_days_before_year` helper behind Python's `date.toordinal`). -/
def daysBeforeYear (y : Nat) : Nat :=
  let n := y - 1
  n * 365 + n / 4 - n / 100 + n / 400

/-- Gregorian leap-year test. -/
def isLeap (y : Nat) : Bool :=
  y % 4 == 0 && (y % 100 != 0 || y % 400 == 0)

/-- Days before the first of month `m` in a non-leap year. -/
def daysBeforeMonthCommon : Nat → Nat
  | 1 => 0
  | 2 => 31
  | 3 => 59
  | 4 => 90
  | 5 => 120
  | 6 => 151
  | 7 => 181
  | 8 => 212
  | 9 => 243
  | 10 => 273
  | 11 => 304
  | 12 => 334
  | _ => 0

/-- Days before the first of month `m` in year `y`. -/
def daysBeforeMonth (y m : Nat) : Nat :=
  daysBeforeMonthCommon m + (if 2 < m && isLeap y then 1 else 0)

/-- Python `date(y, m, d).toordinal()`. -/
def toOrdinal (y m d : Nat) : Nat :=
  daysBeforeYear y + daysBeforeMonth y m + d

/-- A datetime as seconds since the proleptic epoch; datetime comparison and
subtraction in the source act on this quantity. -/
def DateTime.toSecs (t : DateTime) : Nat :=
  toOrdinal t.year t.month t.day * 86400 + t.secs

/-- Number of days in month `m` of year `y`. -/
def daysInMonth (y m : Nat) : Nat :=
  if m = 2 then (if isLeap y then 29 else 28)
  else if m = 4 ∨ m = 6 ∨ m = 9 ∨ m = 11 then 30
  else 31

/-- The `datetime(year, month, day)` constructor: `some` midnight of a valid
proleptic Gregorian date with `MINYEAR <= year <= MAXYEAR`, `none` for the
`ValueError` it raises on any other argument (e.g. Feb 29 of a non-leap
year). -/
def mkPyDatetime (y m d : Nat) : Option DateTime :=
  if 1 ≤ y && y ≤ 9999 && 1 ≤ m && m ≤ 12 && 1 ≤ d && d ≤ daysInMonth y m then
    some ⟨y, m, d, 0⟩
  else none

/-- Every character is an ASCII digit. -/
def allDigits (cs : List Char) : Bool :=
  cs.all Char.isDigit

/-- The `str(value).strip() == ''` test of the validators: the string is
empty or all whitespace. -/
def blankStr (s : String) : Bool :=
  s.data.all Char.isWhitespace

/-- Split a character list on `-` (empty segments kept), used to model the
hyphen-separated groups of the birthday pattern. -/
def splitHyphens : List Char → List (List Char)
  | [] => [[]]
  | c :: rest =>
    if c = '-' then [] :: splitHyphens rest
    else
      match splitHyphens rest with
      | [] => [[c]]
      | g :: gs => (c :: g) :: gs

/-- Read a digit string as a number. -/
def parseDigits (cs : List Char) : Nat :=
  cs.foldl (fun acc c => acc * 10 + (c.toNat - 48)) 0

/-- Python `datetime.fromisoformat` on date-only strings: accepts exactly
`YYYY-MM-DD` naming a valid calendar date (year at least 1), producing the
datetime at midnight; `none` models the `ValueError` it otherwise raises
(including on the 1-digit month/day variants the birthday regex lets through). -/
def fromisoformat (s : String) : Option DateTime :=
  match s.data with
  | [y1, y2, y3, y4, '-', m1, m2, '-', d1, d2] =>
    if allDigits [y1, y2, y3, y4, m1, m2, d1, d2] then
      let y := parseDigits [y1, y2, y3, y4]
      let m := parseDigits [m1, m2]
      let d := parseDigits [d1, d2]
      if 1 ≤ y && 1 ≤ m && m ≤ 12 && 1 ≤ d && d ≤ daysInMonth y m then
        some ⟨y, m, d, 0⟩
      else none
    else none
  | _ => none

/-- `re.match` against `^\+?[\d]{10,14}$` (the phone validator's pattern):
an optional leading `+` followed by 10 to 14 digits. -/
def phoneRegexOk (s : String) : Bool :=
  let ds := match s.data with
    | '+' :: rest => rest
    | cs => cs
  allDigits ds && 10 ≤ ds.length && ds.length ≤ 14

/-- One or two digits (the `\d?\d` groups of the birthday pattern). -/
def segDigits12 (cs : List Char) : Bool :=
  allDigits cs && (cs.length == 1 || cs.length == 2)

/-- `re.match` against `^\d{4}\-\d?\d\-\d?\d$` (the birthday validator's
pattern): three hyphen-separated digit groups of widths 4, 1-2, 1-2. -/
def birthdayRegexOk (s : String) : Bool :=
  match splitHyphens s.data with
  | [a, b, c] =>
    allDigits a && a.length == 4 && segDigits12 b && segDigits12 c
  | _ => false

/-- `NameField`: a validated wrapper around the contact's name. -/
structure NameField where
  value : String
deriving DecidableEq, Repr

/-- The `value` setter of `NameField`: rejects blank strings, leaving the
field untouched; otherwise stores the new value. The `Option String` is the
raised `ValueError` message. -/
def nameSetValue (f : NameField) (v : String) : NameField × Option String :=
  if blankStr v then (f, some "Name cannot be empty or whitespaces")
  else (⟨v⟩, none)

/-- `NameField(name)` construction: the setter runs on a fresh object and an
error aborts construction. -/
def mkNameField (v : String) : Except String NameField :=
  if blankStr v then .error "Name cannot be empty or whitespaces"
  else .ok ⟨v⟩

/-- `PhoneField`: a validated wrapper around one phone number string. -/
structure PhoneField where
  value : String
deriving DecidableEq, Repr

/-- The `value` setter of `PhoneField`. -/
def phoneSetValue (f : PhoneField) (v : String) : PhoneField × Option String :=
  if blankStr v then (f, some "Phone cannot be empty or whitespaces")
  else if phoneRegexOk v then (⟨v⟩, none)
  else (f, some "Phone is not correct")

/-- `PhoneField(phone)` construction. -/
def mkPhoneField (v : String) : Except String PhoneField :=
  if blankStr v then .error "Phone cannot be empty or whitespaces"
  else if phoneRegexOk v then .ok ⟨v⟩
  else .error "Phone is not correct"

/-- `s.lstrip('+').lstrip('0')`: drop every leading `+`, then every
leading `0`. -/
def stripPlusZeros (s : String) : String :=
  ⟨(s.data.dropWhile (· = '+')).dropWhile (· = '0')⟩

/-- `PhoneField.get_phone_code`: the normalized comparison key. -/
def PhoneField.get_phone_code (p : PhoneField) : String :=
  stripPlusZeros p.value

/-- `BirthDayField`: the raw string plus the parsed date (`self.date`,
initialized to `None` before the first validation runs). -/
structure BirthDayField where
  value : String
  date : Option DateTime
deriving DecidableEq, Repr

/-- The `value` setter of `BirthDayField` (`__validate_birthday__`). Note the
source stores the parsed date into `self.date` before the not-in-the-future
check, so a well-formed future date overwrites `date` even though the
assignment raises and `value` keeps its old contents. -/
def birthdaySetValue (now : DateTime) (f : BirthDayField) (v : String) :
    BirthDayField × Option String :=
  if blankStr v then (f, some "Birthday cannot be empty or whitespaces")
  else if birthdayRegexOk v then
    match fromisoformat v with
    | none => (f, some "Invalid isoformat string")
    | some d =>
      if now.toSecs < d.toSecs then
        ({ f with date := some d }, some "Birthday cannot be than now")
      else ({ value := v, date := some d }, none)
  else (f, some "Birthday is not correct, should be YYYY-MM-DD")

/-- `BirthDayField(b)` construction: `self.date = None`, then the setter; an
error aborts construction. -/
def mkBirthDayField (now : DateTime) (v : String) : Except String BirthDayField :=
  match birthdaySetValue now ⟨"", none⟩ v with
  | (_, some e) => .error e
  | (f, none) => .ok f

/-- `BirthDayField.get_datetime`. -/
def BirthDayField.get_datetime (f : BirthDayField) : Option DateTime :=
  f.date

/-- A contact `Record`: one name, an ordered phone list, an optional
birthday. -/
structure Record where
  name : NameField
  phones : List PhoneField
  birthday : Option BirthDayField
deriving DecidableEq, Repr

/-- `Record(name)` as used by the loader: validates the name, starts with no
phones and no birthday. -/
def mkRecord (name : String) : Except String Record :=
  match mkNameField name with
  | .error e => .error e
  | .ok nf => .ok ⟨nf, [], none⟩

/-- `Record.add_phone`: append, no dedup. -/
def Record.add_phone (r : Record) (p : PhoneField) : Record :=
  { r with phones := r.phones ++ [p] }

/-- `Record.edit_phone`: clear the list, then `add_phone` the new one. -/
def Record.edit_phone (r : Record) (p : PhoneField) : Record :=
  Record.add_phone { r with phones := [] } p

/-- Remove the first list element satisfying `p` (the `for`/`remove`/`break`
loop of `delete_phone`). -/
def removeFirst (p : PhoneField → Bool) : List PhoneField → List PhoneField
  | [] => []
  | x :: xs => if p x then xs else x :: removeFirst p xs

/-- `Record.delete_phone`: drop the first phone whose normalized key equals
the normalized argument; a no-op when none matches. -/
def Record.delete_phone (r : Record) (number : String) : Record :=
  let code := stripPlusZeros number
  { r with phones := removeFirst (fun s => s.get_phone_code == code) r.phones }

/-- `Record.days_to_birthday`, with "now" made explicit. `delta1`/`delta2`
are this year's and next year's occurrence of the birthday's month/day at
midnight, both constructed eagerly before the comparison, so an invalid date
in either year (a Feb-29 birthday: next year after a leap year is never
leap) raises `ValueError` instead of returning; the `timedelta.days` of the
subtraction is a floor division of the second count by 86400. `none` models
every raised exception: the `AttributeError` when no birthday (or no parsed
date) is present, and the constructor's `ValueError`. -/
def Record.days_to_birthday (now : DateTime) (r : Record) : Option Int :=
  match r.birthday with
  | none => none
  | some b =>
    match b.date with
    | none => none
    | some bd =>
      match mkPyDatetime now.year bd.month bd.day with
      | none => none
      | some d1 =>
        match mkPyDatetime (now.year + 1) bd.month bd.day with
        | none => none
        | some d2 =>
          let nowS : Int := now.toSecs
          let delta1 : Int := d1.toSecs
          let delta2 : Int := d2.toSecs
          some (Int.fdiv ((if nowS < delta1 then delta1 else delta2) - nowS) 86400)

/-- One element of the persisted JSON array; each key may be absent. -/
structure JsonRecord where
  name : Option String
  birthday : Option String
  phones : Option (List String)
deriving DecidableEq, Repr

/-- `Record.get_json_data`: `birthday` is emitted only when set (object
truthiness is `is not None`); `phones` is always present. -/
def Record.get_json_data (r : Record) : JsonRecord :=
  { name := some r.name.value
    birthday := r.birthday.map BirthDayField.value
    phones := some (r.phones.map PhoneField.value) }

/-- The `AddressBook`: an insertion-ordered name-to-record mapping plus the
configured page size. -/
structure AddressBook where
  data : List (String × Record)
  max_page : Nat
deriving DecidableEq, Repr

/-- `AddressBook(max_page)`; `none` models the `None` default, replaced
by 3. -/
def mkAddressBook (mp : Option Nat) : AddressBook :=
  { data := [], max_page := mp.getD 3 }

/-- Python dict assignment `self.data[k] = r`: an existing key is updated in
place (keeping its position in key order); a new key is appended. -/
def dictInsert (k : String) (r : Record) : List (String × Record) → List (String × Record)
  | [] => [(k, r)]
  | (k', r') :: rest =>
    if k' = k then (k, r) :: rest else (k', r') :: dictInsert k r rest

/-- `AddressBook.add_record`: insert/overwrite keyed by the record's name. -/
def AddressBook.add_record (b : AddressBook) (r : Record) : AddressBook :=
  { b with data := dictInsert r.name.value r b.data }

/-- The generator loop of `AddressBook.__iter__`: accumulate records into
`page`, yield it when it reaches `n`, and yield the final partial page when
nonempty. -/
def chunkLoop (n : Nat) (page : List Record) : List Record → List (List Record)
  | [] => if page.isEmpty then [] else [page]
  | r :: rs =>
    let page' := page ++ [r]
    if page'.length = n then page' :: chunkLoop n [] rs
    else chunkLoop n page' rs

/-- The pages produced by iterating the book, in map key order. -/
def AddressBook.pages (b : AddressBook) : List (List Record) :=
  chunkLoop b.max_page [] (b.data.map Prod.snd)

/-- The scan of `AddressBook.__getitem__`: `p` counts pages from 1; running
past the end raises `KeyError` with the page counter reached. -/
def getItemLoop (pageNumber p : Nat) : List (List Record) → Except String (List Record)
  | [] => .error ("index out of range in book, max page: " ++ toString p)
  | pg :: rest =>
    if pageNumber = p then .ok pg else getItemLoop pageNumber (p + 1) rest

/-- `AddressBook.__getitem__ page_number`. -/
def AddressBook.getItem (b : AddressBook) (pageNumber : Nat) : Except String (List Record) :=
  getItemLoop pageNumber 1 b.pages

/-- `AddressBook.save_to_file`: the JSON array written to disk, one exported
record per entry in map order. -/
def AddressBook.save_to_file (b : AddressBook) : List JsonRecord :=
  b.data.map (fun kv => kv.2.get_json_data)

/-- The phone-rebuilding loop of `load_from_file`: each raw string goes
through `PhoneField` construction, the first failure aborting. -/
def buildPhones : List String → Except String (List PhoneField)
  | [] => .ok []
  | v :: vs =>
    match mkPhoneField v with
    | .error e => .error e
    | .ok p =>
      match buildPhones vs with
      | .error e => .error e
      | .ok ps => .ok (p :: ps)

/-- Rebuild one record of the loaded JSON array: skip silently when `name`
is absent (`ok none`), otherwise validate name, then birthday, then each
phone, any `ValueError` aborting. -/
def buildRecord (now : DateTime) (j : JsonRecord) : Except String (Option Record) :=
  match j.name with
  | none => .ok none
  | some n =>
    match mkRecord n with
    | .error e => .error e
    | .ok r0 =>
      match (match j.birthday with
             | none => Except.ok (none : Option BirthDayField)
             | some bs =>
               match mkBirthDayField now bs with
               | .error e => .error e
               | .ok bf => .ok (some bf)) with
      | .error e => .error e
      | .ok bd =>
        match (match j.phones with
               | none => Except.ok ([] : List PhoneField)
               | some ps => buildPhones ps) with
        | .error e => .error e
        | .ok phs => .ok (some { r0 with birthday := bd, phones := phs })

/-- The record loop of `load_from_file`. `i` is `record_index`, which the
source initializes to 0 and never increments; on a `ValueError` the loop
stops, returning the mapping built so far and the error message. -/
def loadRecords (now : DateTime) (i : Nat) (data : List (String × Record)) :
    List JsonRecord → List (String × Record) × Option String
  | [] => (data, none)
  | j :: js =>
    match buildRecord now j with
    | .error e =>
      (data, some ("Validation error in " ++ toString i ++ " record: " ++ e))
    | .ok none => loadRecords now i data js
    | .ok (some r) => loadRecords now i (dictInsert r.name.value r data) js

/-- `AddressBook.load_from_file`: the file contents arrive already parsed,
`Except.error` modelling a `JSONDecodeError` whose message is returned before
the mapping is touched; on parse success the mapping is reset and rebuilt. -/
def AddressBook.load_from_file (b : AddressBook) (now : DateTime)
    (parsed : Except String (List JsonRecord)) : AddressBook × Option String :=
  match parsed with
  | .error e => (b, some e)
  | .ok js =>
    let res := loadRecords now 0 [] js
    ({ b with data := res.1 }, res.2)

/-- `true` on an `ok` result, `false` on an `error`. -/
def isOkB {α : Type} : Except String α → Bool
  | .ok _ => true
  | .error _ => false

/-- The observable content of a record: its name, its phone strings in
order, and its raw birthday string if set. -/
def recordTuple (r : Record) : String × List String × Option String :=
  (r.name.value, r.phones.map PhoneField.value, r.birthday.map BirthDayField.value)

/-- All three fields of a record would pass their own validation again at
time `now` (which holds for any record built through the constructors). -/
def validRecord (now : DateTime) (r : Record) : Bool :=
  isOkB (mkNameField r.name.value)
    && r.phones.all (fun p => isOkB (mkPhoneField p.value))
    && (match r.birthday with
        | none => true
        | some bf => isOkB (mkBirthDayField now bf.value))

/-! Concrete sample data used to instantiate the theorems. -/

/-- A sample "now": noon on 2024-05-10. -/
def now0 : DateTime := ⟨2024, 5, 10, 43200⟩

/-- The birthday field produced by `BirthDayField("2000-05-10")` at `now0`. -/
def bf0 : BirthDayField := ⟨"2000-05-10", some ⟨2000, 5, 10, 0⟩⟩

/-- A record whose birthday month/day (May 10) equal `now0`'s. -/
def r0 : Record := ⟨⟨"Ann"⟩, [], some bf0⟩

/-- A record holding the single phone `+380501234567`. -/
def r5 : Record := ⟨⟨"Ann"⟩, [⟨"+380501234567"⟩], none⟩

/-- Noon on the leap day 2024-02-29. -/
def nowFeb : DateTime := ⟨2024, 2, 29, 43200⟩

/-- The birthday field produced by `BirthDayField("2020-02-29")`. -/
def bfFeb : BirthDayField := ⟨"2020-02-29", some ⟨2020, 2, 29, 0⟩⟩

/-- A record with a Feb-29 birthday. -/
def rFeb : Record := ⟨⟨"Leap"⟩, [], some bfFeb⟩

/-- A persisted record that rebuilds successfully. -/
def jAnn : JsonRecord := ⟨some "Ann", none, some ["+380501112233"]⟩

/-- A persisted record whose blank name fails validation. -/
def jBlank : JsonRecord := ⟨some " ", none, none⟩

/-- Another persisted record that rebuilds successfully. -/
def jKate : JsonRecord := ⟨some "Kate", none, none⟩

/-- The spec's scenario record: Bob with the future birthday `2999-01-01`. -/
def jBob : JsonRecord := ⟨some "Bob", some "2999-01-01", none⟩

/-- A record with the given name and nothing else. -/
def mkR (s : String) : Record := ⟨⟨s⟩, [], none⟩

/-- A book of four records with the default page size 3. -/
def b4 : AddressBook :=
  ⟨[("A", mkR "A"), ("B", mkR "B"), ("C", mkR "C"), ("D", mkR "D")], 3⟩

/-- A fully populated valid record. -/
def rAnn : Record := ⟨⟨"Ann"⟩, [⟨"+380501112233"⟩], some bf0⟩

/-- A valid record with two phones and no birthday. -/
def rKate : Record := ⟨⟨"Kate"⟩, [⟨"0501234567"⟩, ⟨"+380501234567"⟩], none⟩

/-- A record with no phones. -/
def rOle : Record := mkR "Ole"

/-- A small valid book. -/
def bb : AddressBook := ⟨[("Ann", rAnn), ("Kate", rKate)], 3⟩

/-- A three-entry book whose middle entry will be overwritten. -/
def bc3 : AddressBook := ⟨[("Ann", rAnn), ("Kate", rKate), ("Ole", rOle)], 3⟩

/-- A replacement record named Kate with a different phone. -/
def rKate2 : Record := ⟨⟨"Kate"⟩, [⟨"+380671112233"⟩], none⟩

/-! Theorems. -/

/-- Claim C8: `edit_phone` always leaves exactly one phone on the record,
the new one, regardless of how many phones existed before. -/
theorem c8_edit_phone_single (r : Record) (p : PhoneField) :
    (r.edit_phone p).phones = [p] := rfl

/-- Claim C9: a load whose contents fail JSON parsing returns the parse
error message and leaves the book exactly as it was. -/
theorem c9_parse_error_preserves_book (b : AddressBook) (now : DateTime) (e : String) :
    b.load_from_file now (.error e) = (b, some e) := rfl

/-- Claim C3 (evaluating the failing input): loading three records whose
third (0-based index 2) has the future birthday `2999-01-01` reports
record index 0, because `record_index` is never incremented. -/
theorem c3_reported_index_is_zero :
    (AddressBook.load_from_file (mkAddressBook none) now0 (.ok [jAnn, jKate, jBob])).2
      = some "Validation error in 0 record: Birthday cannot be than now" := by
  decide

/-- Claim C2 is false as stated: a load whose second record fails validation
aborts, yet the book ends up holding the successfully rebuilt first record
rather than being empty. -/
theorem c2_counterexample :
    ((AddressBook.load_from_file (mkAddressBook none) now0 (.ok [jAnn, jBlank])).2).isSome = true
    ∧ ((AddressBook.load_from_file (mkAddressBook none) now0 (.ok [jAnn, jBlank])).1).data.map
        Prod.fst = ["Ann"] := by
  decide

/-- Claim C1 is false as stated: on a record with birthday `2000-05-10`,
with "now" at noon on 2024-05-10 (same month and day), `days_to_birthday`
returns 364, not 0. -/
theorem c1_counterexample :
    mkBirthDayField now0 "2000-05-10" = Except.ok bf0
    ∧ r0.birthday = some bf0
    ∧ now0.month = 5 ∧ now0.day = 10
    ∧ bf0.date = some ⟨2000, 5, 10, 0⟩
    ∧ Record.days_to_birthday now0 r0 = some 364
    ∧ Record.days_to_birthday now0 r0 ≠ some 0 := by
  refine ⟨rfl, rfl, rfl, rfl, rfl, by decide, by decide⟩

/-- Claim C5 is false as stated: `delete_phone "0501234567"` does not remove
a phone stored as `"+380501234567"`; the normalized keys differ
(`"501234567"` for the argument, `"380501234567"` for the stored phone), so
the call is a no-op. -/
theorem c5_counterexample :
    (Record.delete_phone r5 "0501234567").phones = [⟨"+380501234567"⟩]
    ∧ PhoneField.get_phone_code ⟨"+380501234567"⟩ = "380501234567"
    ∧ stripPlusZeros "0501234567" = "501234567" := by
  decide

/-- Claim C4 is false as stated for `BirthDayField`: re-assigning
`2999-01-01` (a well-formed future date) to a field holding `2000-05-10`
raises, keeps the old `value`, yet overwrites the parsed date, so
`get_datetime()` now exposes the rejected future date instead of the
previous one. -/
theorem c4_counterexample :
    (birthdaySetValue now0 bf0 "2999-01-01").2 = some "Birthday cannot be than now"
    ∧ ((birthdaySetValue now0 bf0 "2999-01-01").1).value = "2000-05-10"
    ∧ BirthDayField.get_datetime (birthdaySetValue now0 bf0 "2999-01-01").1
        = some ⟨2999, 1, 1, 0⟩
    ∧ BirthDayField.get_datetime bf0 = some ⟨2000, 5, 10, 0⟩ := by
  decide

theorem dictInsert_append_of_notin (k : String) (r : Record)
    (pre rest : List (String × Record)) (h : ∀ kv ∈ pre, kv.1 ≠ k) :
    dictInsert k r (pre ++ rest) = pre ++ dictInsert k r rest := by
  induction pre with
  | nil => rfl
  | cons kv pre ih =>
    obtain ⟨k', r'⟩ := kv
    have hk : k' ≠ k := h (k', r') (List.mem_cons_self _ _)
    simp only [List.cons_append, dictInsert, if_neg hk, List.cons.injEq, true_and]
    exact ih (fun x hx => h x (List.mem_cons_of_mem _ hx))

/-- Claim C10: adding a record whose name is already a key overwrites that
entry in place, keeping its position in the key order (it does not move to
the end). -/
theorem c10_overwrite_keeps_position (b : AddressBook) (r old : Record)
    (pre suf : List (String × Record))
    (hdata : b.data = pre ++ (r.name.value, old) :: suf)
    (hpre : ∀ kv ∈ pre, kv.1 ≠ r.name.value) :
    (b.add_record r).data = pre ++ (r.name.value, r) :: suf := by
  show dictInsert r.name.value r b.data = _
  rw [hdata, dictInsert_append_of_notin _ _ _ _ hpre]
  simp [dictInsert]

theorem c10_witness :
    (bc3.add_record rKate2).data = [("Ann", rAnn), ("Kate", rKate2), ("Ole", rOle)] :=
  c10_overwrite_keeps_position bc3 rKate2 rKate [("Ann", rAnn)] [("Ole", rOle)] rfl
    (by decide)

theorem removeFirst_of_no_match (p : PhoneField → Bool) (l : List PhoneField)
    (h : ∀ x ∈ l, p x = false) : removeFirst p l = l := by
  induction l with
  | nil => rfl
  | cons x xs ih =>
    have hx := h x (List.mem_cons_self _ _)
    have ht := ih (fun y hy => h y (List.mem_cons_of_mem _ hy))
    simp [removeFirst, hx, ht]

/-- Claim C5 amended: `delete_phone` removes the first stored phone whose
normalized key equals the normalized argument and is a no-op when no key
matches; `"0501234567"` normalizes to `"501234567"` while `"+380501234567"`
normalizes to `"380501234567"`, so that particular call removes nothing
(an argument normalizing to `"380501234567"` does remove it). -/
theorem c5_amended :
    (∀ (r : Record) (number : String) (ph : PhoneField) (rest : List PhoneField),
      r.phones = ph :: rest → ph.get_phone_code = stripPlusZeros number →
      (r.delete_phone number).phones = rest)
    ∧ (∀ (r : Record) (number : String),
      (∀ ph ∈ r.phones, ph.get_phone_code ≠ stripPlusZeros number) →
      r.delete_phone number = r) := by
  constructor
  · intro r number ph rest hp hcode
    simp [Record.delete_phone, hp, removeFirst, hcode]
  · intro r number h
    have hrm : removeFirst (fun s => s.get_phone_code == stripPlusZeros number)
        r.phones = r.phones := by
      apply removeFirst_of_no_match
      intro x hx
      simpa using h x hx
    simp [Record.delete_phone, hrm]

theorem c5_amended_witness :
    (Record.delete_phone r5 "380501234567").phones = []
    ∧ Record.delete_phone r5 "0501234567" = r5 := by
  constructor
  · exact c5_amended.1 r5 "380501234567" ⟨"+380501234567"⟩ [] rfl (by decide)
  · exact c5_amended.2 r5 "0501234567" (by decide)

/-- Claim C4 amended: re-assignment reapplies the same validation for every
field. A failed re-assignment leaves a `NameField` or `PhoneField` entirely
unchanged, and always keeps a `BirthDayField`'s `value`; but when the
rejected input is a well-formed date lying in the future, the parsed date
exposed by `get_datetime()` is overwritten with the new future date, so the
birthday field's observable state is not fully preserved. -/
theorem c4_amended :
    (∀ (f : NameField) (v : String),
      ((nameSetValue f v).2).isSome = true → (nameSetValue f v).1 = f)
    ∧ (∀ (f : PhoneField) (v : String),
      ((phoneSetValue f v).2).isSome = true → (phoneSetValue f v).1 = f)
    ∧ (∀ (now : DateTime) (f : BirthDayField) (v : String),
      ((birthdaySetValue now f v).2).isSome = true →
        ((birthdaySetValue now f v).1).value = f.value)
    ∧ (∀ (now : DateTime) (f : BirthDayField) (v : String) (d : DateTime),
      blankStr v = false → birthdayRegexOk v = true → fromisoformat v = some d →
      now.toSecs < d.toSecs →
      birthdaySetValue now f v
        = ({ f with date := some d }, some "Birthday cannot be than now")) := by
  refine ⟨?_, ?_, ?_, ?_⟩
  · intro f v h
    by_cases hb : blankStr v
    · simp [nameSetValue, hb]
    · simp [nameSetValue, hb] at h
  · intro f v h
    by_cases h1 : blankStr v
    · simp [phoneSetValue, h1]
    · by_cases h2 : phoneRegexOk v
      · simp [phoneSetValue, h1, h2] at h
      · simp [phoneSetValue, h1, h2]
  · intro now f v h
    by_cases h1 : blankStr v
    · simp [birthdaySetValue, h1]
    · by_cases h2 : birthdayRegexOk v
      · cases hf : fromisoformat v with
        | none => simp [birthdaySetValue, h1, h2, hf]
        | some d =>
          by_cases h3 : now.toSecs < d.toSecs
          · simp [birthdaySetValue, h1, h2, hf, h3]
          · simp [birthdaySetValue, h1, h2, hf, h3] at h
      · simp [birthdaySetValue, h1, h2]
  · intro now f v d h1 h2 h3 h4
    simp [birthdaySetValue, h1, h2, h3, h4]

theorem c4_amended_witness :
    (nameSetValue ⟨"Ann"⟩ " ").1 = ⟨"Ann"⟩
    ∧ (phoneSetValue ⟨"+380501112233"⟩ "123").1 = ⟨"+380501112233"⟩
    ∧ ((birthdaySetValue now0 bf0 "nope").1).value = bf0.value
    ∧ birthdaySetValue now0 bf0 "2999-01-01"
        = ({ bf0 with date := some ⟨2999, 1, 1, 0⟩ },
           some "Birthday cannot be than now") := by
  refine ⟨c4_amended.1 _ _ (by decide), c4_amended.2.1 _ _ (by decide),
    c4_amended.2.2.1 now0 _ _ (by decide),
    c4_amended.2.2.2 now0 bf0 _ ⟨2999, 1, 1, 0⟩ (by decide) (by decide) (by decide)
      (by decide)⟩

theorem loadRecords_ok_append (now : DateTime) (i : Nat) (rest : List JsonRecord) :
    ∀ (js1 : List JsonRecord) (acc : List (String × Record)),
    (∀ x ∈ js1, isOkB (buildRecord now x) = true) →
    loadRecords now i acc (js1 ++ rest)
      = loadRecords now i (loadRecords now i acc js1).1 rest := by
  intro js1
  induction js1 with
  | nil => intro acc h; simp [loadRecords]
  | cons j js ih =>
    intro acc h
    have hj := h j (List.mem_cons_self _ _)
    cases hb : buildRecord now j with
    | error e => rw [hb] at hj; simp [isOkB] at hj
    | ok o =>
      cases o with
      | none =>
        simp only [List.cons_append, loadRecords, hb]
        exact ih acc (fun x hx => h x (List.mem_cons_of_mem _ hx))
      | some r =>
        simp only [List.cons_append, loadRecords, hb]
        exact ih _ (fun x hx => h x (List.mem_cons_of_mem _ hx))

/-- Claim C2 amended: when rebuilding some record raises a validation error,
the load aborts there and the book's mapping holds exactly the records
successfully rebuilt before the failing one (the prior contents having been
cleared); only a failure at the first record leaves the book empty. -/
theorem c2_amended (b : AddressBook) (now : DateTime) (js1 js2 : List JsonRecord)
    (j : JsonRecord)
    (h1 : ∀ x ∈ js1, isOkB (buildRecord now x) = true)
    (h2 : isOkB (buildRecord now j) = false) :
    ((b.load_from_file now (.ok (js1 ++ j :: js2))).2).isSome = true
    ∧ (b.load_from_file now (.ok (js1 ++ j :: js2))).1.data
        = (loadRecords now 0 [] js1).1 := by
  obtain ⟨e, he⟩ : ∃ e, buildRecord now j = .error e := by
    cases hb : buildRecord now j with
    | error e => exact ⟨e, rfl⟩
    | ok o => rw [hb] at h2; simp [isOkB] at h2
  have hload : loadRecords now 0 [] (js1 ++ j :: js2)
      = ((loadRecords now 0 [] js1).1,
         some ("Validation error in " ++ toString 0 ++ " record: " ++ e)) := by
    rw [loadRecords_ok_append now 0 (j :: js2) js1 [] h1]
    simp [loadRecords, he]
  simp [AddressBook.load_from_file, hload]

theorem c2_amended_witness :
    ((AddressBook.load_from_file (mkAddressBook none) now0
        (.ok ([jAnn] ++ jBlank :: []))).2).isSome = true
    ∧ (AddressBook.load_from_file (mkAddressBook none) now0
        (.ok ([jAnn] ++ jBlank :: []))).1.data = (loadRecords now0 0 [] [jAnn]).1 :=
  c2_amended (mkAddressBook none) now0 [jAnn] [] jBlank (by decide) (by decide)

theorem chunkLoop_join (n : Nat) :
    ∀ (l page : List Record), page.length < n →
    (chunkLoop n page l).flatten = page ++ l := by
  intro l
  induction l with
  | nil =>
    intro page h
    cases page with
    | nil => simp [chunkLoop]
    | cons x xs => simp [chunkLoop]
  | cons r rs ih =>
    intro page h
    simp only [chunkLoop]
    by_cases he : (page ++ [r]).length = n
    · rw [if_pos he]
      have h0 : (0 : Nat) < n := Nat.lt_of_le_of_lt (Nat.zero_le _) h
      rw [List.flatten_cons, ih [] (by simpa using h0)]
      simp
    · rw [if_neg he]
      rw [ih (page ++ [r])
        (by simp only [List.length_append, List.length_singleton, List.length_nil] at he ⊢; omega)]
      simp

theorem chunkLoop_length (n : Nat) (hn : 0 < n) :
    ∀ (l page : List Record), page.length < n →
    (chunkLoop n page l).length = (page.length + l.length + (n - 1)) / n := by
  intro l
  induction l with
  | nil =>
    intro page h
    cases page with
    | nil =>
      have hz : (0 + 0 + (n - 1)) / n = 0 := Nat.div_eq_of_lt (by omega)
      simp only [chunkLoop, List.isEmpty_nil, if_true, List.length_nil]
      simpa using hz.symm
    | cons x xs =>
      have hone : ((x :: xs).length + 0 + (n - 1)) / n = 1 := by
        apply Nat.div_eq_of_lt_le
        · simp only [List.length_cons]
          omega
        · simp only [List.length_cons] at h ⊢
          omega
      simp only [chunkLoop, List.isEmpty_cons, Bool.false_eq_true, if_false,
        List.length_singleton, List.length_nil]
      exact hone.symm
  | cons r rs ih =>
    intro page h
    simp only [chunkLoop]
    by_cases he : (page ++ [r]).length = n
    · rw [if_pos he]
      simp only [List.length_append, List.length_singleton, List.length_nil] at he
      simp only [List.length_cons]
      rw [ih [] (by simpa using hn)]
      simp only [List.length_nil, Nat.zero_add]
      have hrw : page.length + (rs.length + 1) + (n - 1)
          = rs.length + (n - 1) + 1 * n := by omega
      rw [hrw, Nat.add_mul_div_right _ _ hn]
    · rw [if_neg he]
      have hnum : page.length + (r :: rs).length + (n - 1)
          = (page ++ [r]).length + rs.length + (n - 1) := by
        simp only [List.length_append, List.length_singleton, List.length_nil, List.length_cons]
        omega
      rw [hnum]
      exact ih (page ++ [r]) (by
        simp only [List.length_append, List.length_singleton, List.length_nil] at he ⊢
        omega)

theorem chunkLoop_mem_le (n : Nat) :
    ∀ (l page : List Record), page.length < n →
    ∀ pg ∈ chunkLoop n page l, pg.length ≤ n := by
  intro l
  induction l with
  | nil =>
    intro page h pg hpg
    cases page with
    | nil => simp [chunkLoop] at hpg
    | cons x xs =>
      simp only [chunkLoop, List.isEmpty_cons, Bool.false_eq_true, if_false,
        List.mem_singleton] at hpg
      subst hpg
      omega
  | cons r rs ih =>
    intro page h pg hpg
    simp only [chunkLoop] at hpg
    by_cases he : (page ++ [r]).length = n
    · rw [if_pos he] at hpg
      rcases List.mem_cons.mp hpg with h1 | h2
      · subst h1; omega
      · exact ih [] (by simp only [List.length_nil]; omega) pg h2
    · rw [if_neg he] at hpg
      exact ih (page ++ [r])
        (by simp only [List.length_append, List.length_singleton, List.length_nil] at he ⊢; omega) pg hpg

theorem chunkLoop_ne_nil (n : Nat) :
    ∀ (l page : List Record), page ≠ [] ∨ l ≠ [] → chunkLoop n page l ≠ [] := by
  intro l
  induction l with
  | nil =>
    intro page h
    cases page with
    | nil => simp at h
    | cons x xs => simp [chunkLoop]
  | cons r rs ih =>
    intro page h
    simp only [chunkLoop]
    by_cases he : (page ++ [r]).length = n
    · rw [if_pos he]; simp
    · rw [if_neg he]
      exact ih (page ++ [r]) (Or.inl (by simp))

theorem chunkLoop_getLast (n : Nat) (hn : 0 < n) :
    ∀ (l page : List Record), page.length < n → 0 < page.length + l.length →
    ∃ lst, (chunkLoop n page l).getLast? = some lst
      ∧ lst.length = (if (page.length + l.length) % n = 0 then n
                      else (page.length + l.length) % n) := by
  intro l
  induction l with
  | nil =>
    intro page hlt hpos
    cases page with
    | nil => simp at hpos
    | cons x xs =>
      refine ⟨x :: xs, by simp [chunkLoop], ?_⟩
      simp only [List.length_nil, Nat.add_zero] at hlt hpos ⊢
      rw [Nat.mod_eq_of_lt hlt, if_neg (by omega)]
  | cons r rs ih =>
    intro page hlt hpos
    simp only [chunkLoop]
    by_cases he : (page ++ [r]).length = n
    · rw [if_pos he]
      simp only [List.length_append, List.length_singleton, List.length_nil] at he
      cases rs with
      | nil =>
        refine ⟨page ++ [r], by simp [chunkLoop], ?_⟩
        simp only [List.length_cons, List.length_nil, Nat.zero_add,
          List.length_append, List.length_singleton, List.length_nil]
        rw [show page.length + 1 = n from he, Nat.mod_self, if_pos rfl]
      | cons r2 rs2 =>
        obtain ⟨lst, hl, hlen⟩ := ih []
          (by simp only [List.length_nil]; omega) (by simp)
        obtain ⟨c, cs, hc⟩ := List.exists_cons_of_ne_nil
          (chunkLoop_ne_nil n (r2 :: rs2) [] (Or.inr (by simp)))
        refine ⟨lst, ?_, ?_⟩
        · rw [hc, List.getLast?_cons_cons, ← hc, hl]
        · simp only [List.length_nil, Nat.zero_add, List.length_cons] at hlen
          simp only [List.length_cons]
          rw [show page.length + (rs2.length + 1 + 1)
              = rs2.length + 1 + n by omega, Nat.add_mod_right]
          exact hlen
    · rw [if_neg he]
      have hlt' : (page ++ [r]).length < n := by
        simp only [List.length_append, List.length_singleton, List.length_nil] at he ⊢
        omega
      obtain ⟨lst, hl, hlen⟩ := ih (page ++ [r]) hlt' (by simp)
      refine ⟨lst, hl, ?_⟩
      simp only [List.length_append, List.length_singleton, List.length_nil] at hlen
      simp only [List.length_cons]
      rw [show page.length + (rs.length + 1) = page.length + 1 + rs.length by omega]
      exact hlen

theorem getItemLoop_error_of_lt :
    ∀ (l : List (List Record)) (k p : Nat), k < p →
    ∃ e, getItemLoop k p l = .error e := by
  intro l
  induction l with
  | nil => intro k p h; exact ⟨_, rfl⟩
  | cons pg rest ih =>
    intro k p h
    have hne : k ≠ p := by omega
    simp only [getItemLoop, if_neg hne]
    exact ih k (p + 1) (by omega)

theorem getItemLoop_error_of_ge :
    ∀ (l : List (List Record)) (k p : Nat), p + l.length ≤ k →
    ∃ e, getItemLoop k p l = .error e := by
  intro l
  induction l with
  | nil => intro k p h; exact ⟨_, rfl⟩
  | cons pg rest ih =>
    intro k p h
    simp only [List.length_cons] at h
    have hne : k ≠ p := by omega
    simp only [getItemLoop, if_neg hne]
    exact ih k (p + 1) (by omega)

/-- Claim C6: for a book of N records and page size P at least 1, iterating
yields exactly ceil(N/P) pages of at most P records each, whose
concatenation is the record sequence in map key order; the last page (when
N is positive) has N mod P records if that is nonzero and P otherwise; and
indexing page 0, or any page number beyond the page count, fails with an
error. -/
theorem c6_pagination (b : AddressBook) (hp : 0 < b.max_page) :
    (b.pages).length = (b.data.length + (b.max_page - 1)) / b.max_page
    ∧ (∀ pg ∈ b.pages, pg.length ≤ b.max_page)
    ∧ (b.pages).flatten = b.data.map Prod.snd
    ∧ (b.data ≠ [] →
        ∃ lst, (b.pages).getLast? = some lst
          ∧ lst.length = (if b.data.length % b.max_page = 0 then b.max_page
                          else b.data.length % b.max_page))
    ∧ (∃ e, b.getItem 0 = .error e)
    ∧ (∀ k, (b.pages).length < k → ∃ e, b.getItem k = .error e) := by
  refine ⟨?_, ?_, ?_, ?_, ?_, ?_⟩
  · have h := chunkLoop_length b.max_page hp (b.data.map Prod.snd) []
      (by simpa using hp)
    simpa [AddressBook.pages] using h
  · intro pg hpg
    exact chunkLoop_mem_le b.max_page (b.data.map Prod.snd) []
      (by simpa using hp) pg hpg
  · have h := chunkLoop_join b.max_page (b.data.map Prod.snd) [] (by simpa using hp)
    simpa [AddressBook.pages] using h
  · intro hne
    have hpos : 0 < ([] : List Record).length + (b.data.map Prod.snd).length := by
      simpa using List.length_pos.mpr hne
    obtain ⟨lst, h1, h2⟩ := chunkLoop_getLast b.max_page hp (b.data.map Prod.snd)
      [] (by simpa using hp) hpos
    exact ⟨lst, h1, by simpa using h2⟩
  · exact getItemLoop_error_of_lt b.pages 0 1 (by omega)
  · intro k hk
    exact getItemLoop_error_of_ge b.pages k 1 (by omega)

theorem c6_pagination_witness :
    (b4.pages).length = (b4.data.length + (b4.max_page - 1)) / b4.max_page
    ∧ [mkR "D"].length ≤ b4.max_page
    ∧ (b4.pages).flatten = b4.data.map Prod.snd
    ∧ (∃ lst, (b4.pages).getLast? = some lst
        ∧ lst.length = (if b4.data.length % b4.max_page = 0 then b4.max_page
                        else b4.data.length % b4.max_page))
    ∧ (∃ e, b4.getItem 0 = .error e)
    ∧ (∃ e, b4.getItem 5 = .error e) := by
  have h := c6_pagination b4 (by decide)
  exact ⟨h.1, h.2.1 [mkR "D"] (by decide), h.2.2.1, h.2.2.2.1 (by decide),
    h.2.2.2.2.1, h.2.2.2.2.2 5 (by decide)⟩

theorem toOrdinal_next_year (y m d : Nat) (hy : 1 ≤ y) :
    toOrdinal y m d + 2 ≤ toOrdinal (y + 1) m d := by
  have h1 : daysBeforeYear y + 3 ≤ daysBeforeYear (y + 1) := by
    simp only [daysBeforeYear]
    omega
  have h2 : (if 2 < m && isLeap y then 1 else 0) ≤ 1 := by split <;> omega
  simp only [toOrdinal, daysBeforeMonth]
  omega

theorem fdivBy86400 (a : Nat) :
    Int.fdiv (a : Int) 86400 = ((a / 86400 : Nat) : Int) := by
  have h := Int.ofNat_fdiv a 86400
  exact_mod_cast h.symm

/-- Claim C1 amended: on a record whose birthday month/day equal "now"'s,
`days_to_birthday` never returns 0. This year's occurrence at midnight is
never strictly after "now", so the next-year branch is taken: for any
birthday other than Feb 29 the call returns the floored day count to next
year's occurrence, a strictly positive number; for a Feb 29 birthday the
eager construction of the birthday's date (next year after a leap year is
never leap) raises `ValueError`, so the call raises instead of returning. -/
theorem c1_amended :
    (∀ (now : DateTime) (r : Record) (b : BirthDayField) (bd : DateTime),
      1 ≤ now.year → now.year + 1 ≤ 9999 → now.secs < 86400 →
      r.birthday = some b → b.date = some bd →
      bd.month = now.month → bd.day = now.day →
      1 ≤ bd.month → bd.month ≤ 12 → 1 ≤ bd.day →
      bd.day ≤ daysInMonth now.year bd.month →
      ¬(bd.month = 2 ∧ bd.day = 29) →
      ∃ k : Int, Record.days_to_birthday now r = some k ∧ 0 < k
        ∧ k = ((toOrdinal (now.year + 1) bd.month bd.day * 86400 - now.toSecs)
                / 86400 : Nat))
    ∧ (∀ (now : DateTime) (r : Record) (b : BirthDayField) (bd : DateTime),
      r.birthday = some b → b.date = some bd → bd.month = 2 → bd.day = 29 →
      Record.days_to_birthday now r = none) := by
  constructor
  · intro now r b bd hy hy2 hs hb hd hm hdy hm1 hm12 hdl hdim hnot29
    have hgap : toOrdinal now.year bd.month bd.day + 2
        ≤ toOrdinal (now.year + 1) bd.month bd.day :=
      toOrdinal_next_year now.year bd.month bd.day hy
    have hts : now.toSecs
        = toOrdinal now.year bd.month bd.day * 86400 + now.secs := by
      simp only [DateTime.toSecs, hm, hdy]
    have hmk1 : mkPyDatetime now.year bd.month bd.day
        = some ⟨now.year, bd.month, bd.day, 0⟩ := by
      unfold mkPyDatetime
      rw [if_pos]
      simp only [Bool.and_eq_true, decide_eq_true_eq]
      omega
    have hdim2 : bd.day ≤ daysInMonth (now.year + 1) bd.month := by
      by_cases hm2 : bd.month = 2
      · have h29 : bd.day ≠ 29 := fun h => hnot29 ⟨hm2, h⟩
        rw [hm2] at hdim ⊢
        have ha : daysInMonth now.year 2 ≤ 29 := by
          simp only [daysInMonth]
          split_ifs <;> omega
        have hb2 : 28 ≤ daysInMonth (now.year + 1) 2 := by
          simp only [daysInMonth]
          split_ifs <;> omega
        omega
      · have heq : daysInMonth (now.year + 1) bd.month
            = daysInMonth now.year bd.month := by
          simp only [daysInMonth, if_neg hm2]
        rw [heq]
        exact hdim
    have hmk2 : mkPyDatetime (now.year + 1) bd.month bd.day
        = some ⟨now.year + 1, bd.month, bd.day, 0⟩ := by
      unfold mkPyDatetime
      rw [if_pos]
      simp only [Bool.and_eq_true, decide_eq_true_eq]
      omega
    have hsec1 : DateTime.toSecs ⟨now.year, bd.month, bd.day, 0⟩
        = toOrdinal now.year bd.month bd.day * 86400 := by
      simp [DateTime.toSecs]
    have hsec2 : DateTime.toSecs ⟨now.year + 1, bd.month, bd.day, 0⟩
        = toOrdinal (now.year + 1) bd.month bd.day * 86400 := by
      simp [DateTime.toSecs]
    have hble : ¬ ((now.toSecs : Int)
        < ((toOrdinal now.year bd.month bd.day * 86400 : Nat) : Int)) := by
      have hle : toOrdinal now.year bd.month bd.day * 86400 ≤ now.toSecs := by
        omega
      exact not_lt.mpr (by exact_mod_cast hle)
    simp only [Record.days_to_birthday, hb, hd, hmk1, hmk2, hsec1, hsec2]
    rw [if_neg hble]
    have hcast : ((toOrdinal (now.year + 1) bd.month bd.day * 86400 : Nat) : Int)
          - ((now.toSecs : Nat) : Int)
        = ((toOrdinal (now.year + 1) bd.month bd.day * 86400
            - now.toSecs : Nat) : Int) := by
      omega
    refine ⟨_, rfl, ?_, ?_⟩
    · rw [hcast, fdivBy86400]
      have hposn : 0 < (toOrdinal (now.year + 1) bd.month bd.day * 86400
          - now.toSecs) / 86400 := by omega
      exact_mod_cast hposn
    · rw [hcast, fdivBy86400]
  · intro now r b bd hb hd hm2 hd29
    simp only [Record.days_to_birthday, hb, hd, hm2, hd29]
    by_cases hleap : isLeap now.year
    · have h4 : now.year % 4 = 0 := by
        simp only [isLeap, Bool.and_eq_true, beq_iff_eq] at hleap
        exact hleap.1
      have hne4 : ((now.year + 1) % 4 == 0) = false := by
        rw [beq_eq_false_iff_ne]
        omega
      have hnl : isLeap (now.year + 1) = false := by
        simp [isLeap, hne4]
      have hmk2n : mkPyDatetime (now.year + 1) 2 29 = none := by
        simp [mkPyDatetime, daysInMonth, hnl]
      cases h1 : mkPyDatetime now.year 2 29 with
      | none => simp
      | some d1 => simp [hmk2n]
    · rw [Bool.not_eq_true] at hleap
      have hmk1n : mkPyDatetime now.year 2 29 = none := by
        simp [mkPyDatetime, daysInMonth, hleap]
      simp [hmk1n]

theorem c1_amended_witness :
    (Record.days_to_birthday now0 r0 = some 364 ∧ (0 : Int) < 364)
    ∧ Record.days_to_birthday nowFeb rFeb = none := by
  constructor
  · obtain ⟨k, hk, hpos, hval⟩ := c1_amended.1 now0 r0 bf0 ⟨2000, 5, 10, 0⟩
      (by decide) (by decide) (by decide) rfl rfl rfl rfl
      (by decide) (by decide) (by decide) (by decide) (by decide)
    have h364 : k = 364 := by rw [hval]; decide
    exact ⟨by rw [hk, h364], by norm_num⟩
  · exact c1_amended.2 nowFeb rFeb bfFeb ⟨2020, 2, 29, 0⟩ rfl rfl rfl rfl

theorem mkNameField_of_ok (v : String) (h : isOkB (mkNameField v) = true) :
    mkNameField v = .ok ⟨v⟩ := by
  by_cases hb : blankStr v
  · simp [mkNameField, hb, isOkB] at h
  · simp [mkNameField, hb]

theorem mkPhoneField_of_ok (v : String) (h : isOkB (mkPhoneField v) = true) :
    mkPhoneField v = .ok ⟨v⟩ := by
  by_cases h1 : blankStr v
  · simp [mkPhoneField, h1, isOkB] at h
  · by_cases h2 : phoneRegexOk v
    · simp [mkPhoneField, h1, h2]
    · simp [mkPhoneField, h1, h2, isOkB] at h

theorem mkBirthDayField_of_ok (now : DateTime) (v : String)
    (h : isOkB (mkBirthDayField now v) = true) :
    ∃ d, mkBirthDayField now v = .ok ⟨v, some d⟩ := by
  by_cases h1 : blankStr v
  · simp [mkBirthDayField, birthdaySetValue, h1, isOkB] at h
  · by_cases h2 : birthdayRegexOk v
    · cases hf : fromisoformat v with
      | none => simp [mkBirthDayField, birthdaySetValue, h1, h2, hf, isOkB] at h
      | some d =>
        by_cases h3 : now.toSecs < d.toSecs
        · simp [mkBirthDayField, birthdaySetValue, h1, h2, hf, h3, isOkB] at h
        · exact ⟨d, by simp [mkBirthDayField, birthdaySetValue, h1, h2, hf, h3]⟩
    · simp [mkBirthDayField, birthdaySetValue, h1, h2, isOkB] at h

theorem buildPhones_of_ok :
    ∀ (vs : List String), (∀ v ∈ vs, isOkB (mkPhoneField v) = true) →
    buildPhones vs = .ok (vs.map (fun v => ⟨v⟩)) := by
  intro vs
  induction vs with
  | nil => intro h; rfl
  | cons v vs ih =>
    intro h
    have h1 := mkPhoneField_of_ok v (h v (List.mem_cons_self _ _))
    simp only [buildPhones, h1, List.map_cons]
    rw [ih (fun x hx => h x (List.mem_cons_of_mem _ hx))]

theorem buildRecord_of_save (now : DateTime) (r : Record)
    (hv : validRecord now r = true) :
    ∃ r', buildRecord now r.get_json_data = .ok (some r')
      ∧ r'.name = r.name ∧ r'.phones = r.phones
      ∧ r'.birthday.map BirthDayField.value = r.birthday.map BirthDayField.value := by
  have hv' := hv
  simp only [validRecord, Bool.and_eq_true] at hv'
  obtain ⟨⟨hv1, hv2⟩, hv3⟩ := hv'
  have hname := mkNameField_of_ok _ hv1
  have hphones : buildPhones (r.phones.map PhoneField.value) = .ok r.phones := by
    rw [buildPhones_of_ok]
    · congr 1
      rw [List.map_map]
      have hid : ((fun v => (⟨v⟩ : PhoneField)) ∘ PhoneField.value) = id := rfl
      rw [hid, List.map_id]
    · intro v hvv
      obtain ⟨p, hp, hpv⟩ := List.mem_map.mp hvv
      subst hpv
      exact List.all_eq_true.mp hv2 p hp
  cases hbd : r.birthday with
  | none =>
    refine ⟨⟨⟨r.name.value⟩, r.phones, none⟩, ?_, rfl, rfl, ?_⟩
    · simp only [buildRecord, Record.get_json_data, mkRecord, hname, hbd,
        Option.map_none', hphones]
    · simp [hbd]
  | some bf =>
    have hbf : isOkB (mkBirthDayField now bf.value) = true := by
      rw [hbd] at hv3
      exact hv3
    obtain ⟨d, hmk⟩ := mkBirthDayField_of_ok now bf.value hbf
    refine ⟨⟨⟨r.name.value⟩, r.phones, some ⟨bf.value, some d⟩⟩, ?_, rfl, rfl, ?_⟩
    · simp only [buildRecord, Record.get_json_data, mkRecord, hname, hbd,
        Option.map_some', hmk, hphones]
    · simp [hbd]

theorem dictInsert_append_new (k : String) (r : Record) :
    ∀ (data : List (String × Record)), (∀ kv ∈ data, kv.1 ≠ k) →
    dictInsert k r data = data ++ [(k, r)] := by
  intro data
  induction data with
  | nil => intro h; rfl
  | cons kv rest ih =>
    intro h
    obtain ⟨k', r'⟩ := kv
    have hk : k' ≠ k := h (k', r') (List.mem_cons_self _ _)
    simp only [dictInsert, if_neg hk, List.cons_append, List.cons.injEq, true_and]
    exact ih (fun x hx => h x (List.mem_cons_of_mem _ hx))

theorem loadRecords_roundtrip (now : DateTime) :
    ∀ (l acc : List (String × Record)),
    (∀ kv ∈ l, kv.1 = kv.2.name.value) →
    (∀ kv ∈ l, validRecord now kv.2 = true) →
    (∀ kv ∈ l, ∀ av ∈ acc, av.1 ≠ kv.1) →
    (l.map Prod.fst).Nodup →
    (loadRecords now 0 acc (l.map (fun kv => kv.2.get_json_data))).2 = none
    ∧ ((loadRecords now 0 acc (l.map (fun kv => kv.2.get_json_data))).1).map
        (fun kv => recordTuple kv.2)
      = acc.map (fun kv => recordTuple kv.2)
        ++ l.map (fun kv => recordTuple kv.2) := by
  intro l
  induction l with
  | nil => intro acc h1 h2 h3 h4; simp [loadRecords]
  | cons kv l ih =>
    intro acc h1 h2 h3 h4
    obtain ⟨key, r⟩ := kv
    have hkey : key = r.name.value := h1 (key, r) (List.mem_cons_self _ _)
    obtain ⟨r', hbr, hn, hp, hbd⟩ :=
      buildRecord_of_save now r (h2 (key, r) (List.mem_cons_self _ _))
    have hnodup : key ∉ l.map Prod.fst ∧ (l.map Prod.fst).Nodup := by
      rw [List.map_cons] at h4
      exact List.nodup_cons.mp h4
    have hnotin : ∀ av ∈ acc, av.1 ≠ r'.name.value := by
      intro av hav
      have hne := h3 (key, r) (List.mem_cons_self _ _) av hav
      rw [hn, ← hkey]
      exact hne
    have htup : recordTuple r' = recordTuple r := by
      simp [recordTuple, hn, hp, hbd]
    simp only [List.map_cons, loadRecords, hbr]
    rw [dictInsert_append_new _ _ acc hnotin]
    obtain ⟨ihe, ihm⟩ := ih (acc ++ [(r'.name.value, r')])
      (fun x hx => h1 x (List.mem_cons_of_mem _ hx))
      (fun x hx => h2 x (List.mem_cons_of_mem _ hx))
      (by
        intro x hx av hav
        rcases List.mem_append.mp hav with hacc | hnew
        · exact h3 x (List.mem_cons_of_mem _ hx) av hacc
        · have hav1 : av = (r'.name.value, r') := by simpa using hnew
          subst hav1
          have hx1 : x.1 ∈ l.map Prod.fst := List.mem_map_of_mem Prod.fst hx
          show r'.name.value ≠ x.1
          rw [hn, ← hkey]
          intro heq
          exact hnodup.1 (heq ▸ hx1))
      hnodup.2
    refine ⟨ihe, ?_⟩
    rw [ihm]
    simp [htup, List.append_assoc]

/-- Claim C7: serializing a book whose keys are the record names, whose
names are distinct and whose records all hold valid fields, then
deserializing the output, succeeds and reproduces exactly the same
(name, phones, birthday) tuples in the same order (the insertion order of
the re-loaded entries). -/
theorem c7_round_trip (b b2 : AddressBook) (now : DateTime)
    (hkeys : ∀ kv ∈ b.data, kv.1 = kv.2.name.value)
    (hnodup : (b.data.map Prod.fst).Nodup)
    (hvalid : ∀ kv ∈ b.data, validRecord now kv.2 = true) :
    (b2.load_from_file now (.ok b.save_to_file)).2 = none
    ∧ ((b2.load_from_file now (.ok b.save_to_file)).1.data).map
        (fun kv => recordTuple kv.2)
      = b.data.map (fun kv => recordTuple kv.2) := by
  obtain ⟨h1, h2⟩ := loadRecords_roundtrip now b.data [] hkeys hvalid
    (by simp) hnodup
  constructor
  · simpa [AddressBook.load_from_file, AddressBook.save_to_file] using h1
  · simpa [AddressBook.load_from_file, AddressBook.save_to_file] using h2

theorem c7_round_trip_witness :
    ((mkAddressBook none).load_from_file now0 (.ok bb.save_to_file)).2 = none
    ∧ (((mkAddressBook none).load_from_file now0 (.ok bb.save_to_file)).1.data).map
        (fun kv => recordTuple kv.2)
      = bb.data.map (fun kv => recordTuple kv.2) :=
  c7_round_trip bb (mkAddressBook none) now0 (by decide) (by decide) (by decide)
